import Mathlib

set_option autoImplicit false

namespace BeatBooks

/-!
Shallow embedding of the batch-scrape core of the beat-books-data repository:
the ScrapeJob entity (src/entities/scrape_job.py), the scrape-job repository
(src/repositories/scrape_job_repo.py), the batch-scrape orchestrator
(src/services/batch_scrape_service.py), the generic upsert repository
(src/repositories/base_repo.py) and the injury-report repository
(src/repositories/injury_report_repo.py).

Time (datetime.utcnow) is modelled abstractly as a Nat tick supplied by the
caller; the external scrape_and_store collaborator is modelled as an oracle
giving, for each call index, either success (none) or the raised exception
message (some msg).
-/

/-- A batch target: a Python dict that may or may not carry the
"team" and "year" keys (src/services/batch_scrape_service.py). -/
structure Target where
  team : Option String
  year : Option Int
deriving DecidableEq, Repr

/-- The per-target error record built by execute_batch_job:
\x7btarget, error, timestamp\x7d. -/
structure ErrorInfo where
  target : Target
  error : String
  timestamp : Nat
deriving DecidableEq, Repr

/-- The ScrapeJob entity (src/entities/scrape_job.py). `errors` is a nullable
JSON column, hence Option (List ErrorInfo); timestamps are abstract ticks. -/
structure ScrapeJob where
  id : Nat
  status : String
  total_urls : Nat
  processed : Nat
  failed : Nat
  errors : Option (List ErrorInfo)
  created_at : Nat
  completed_at : Option Nat
deriving DecidableEq, Repr

/-- The scrape_jobs table plus the autoincrement id counter. -/
structure JobStore where
  jobs : List ScrapeJob
  nextId : Nat
deriving DecidableEq, Repr

/-- BaseRepository.get_by_id (src/repositories/base_repo.py): primary-key
lookup. -/
def get_by_id (s : JobStore) (job_id : Nat) : Option ScrapeJob :=
  s.jobs.find? (fun j => j.id == job_id)

/-- BaseRepository.update via session.merge: the row with the job's id is
replaced by the given job. -/
def setJob (s : JobStore) (j : ScrapeJob) : JobStore :=
  { s with jobs := s.jobs.map (fun x => if x.id == j.id then j else x) }

/-- ScrapeJobRepository.create_job: inserts a job with status pending,
counters zeroed and errors NULL; the database assigns the next id and
created_at defaults to now. -/
def create_job (s : JobStore) (total_urls : Nat) (now : Nat) :
    JobStore × ScrapeJob :=
  let job : ScrapeJob :=
    { id := s.nextId, status := "pending", total_urls := total_urls,
      processed := 0, failed := 0, errors := none,
      created_at := now, completed_at := none }
  ({ jobs := s.jobs ++ [job], nextId := s.nextId + 1 }, job)

/-- ScrapeJobRepository.update_job_status: read-modify-write of the status;
returns none (and leaves the store untouched) when the id does not resolve. -/
def update_job_status (s : JobStore) (job_id : Nat) (status : String) :
    JobStore × Option ScrapeJob :=
  match get_by_id s job_id with
  | some job =>
      let j := { job with status := status }
      (setJob s j, some j)
  | none => (s, none)

/-- ScrapeJobRepository.increment_processed: processed += 1, or the
not-found sentinel. -/
def increment_processed (s : JobStore) (job_id : Nat) :
    JobStore × Option ScrapeJob :=
  match get_by_id s job_id with
  | some job =>
      let j := { job with processed := job.processed + 1 }
      (setJob s j, some j)
  | none => (s, none)

/-- ScrapeJobRepository.increment_failed: failed += 1, initialise the errors
list when it is NULL, and append the error record; or the not-found
sentinel. The errors column is a plain (untracked) JSON column: only when
it was NULL does the tracked `job.errors = []` assignment make the
subsequent in-place append reach the flush, so the stored row gains the
record; otherwise the append is invisible to the unit of work, commit
writes only `failed`, and the refresh in BaseRepository.update reloads the
stale stored list, losing the append. -/
def increment_failed (s : JobStore) (job_id : Nat) (error_info : ErrorInfo) :
    JobStore × Option ScrapeJob :=
  match get_by_id s job_id with
  | some job =>
      let newErrors : Option (List ErrorInfo) :=
        match job.errors with
        | none => some [error_info]
        | some l => some l
      let j := { job with failed := job.failed + 1, errors := newErrors }
      (setJob s j, some j)
  | none => (s, none)

/-- ScrapeJobRepository.mark_complete: set status complete and
completed_at = now; or the not-found sentinel. -/
def mark_complete (s : JobStore) (job_id : Nat) (now : Nat) :
    JobStore × Option ScrapeJob :=
  match get_by_id s job_id with
  | some job =>
      let j := { job with status := "complete", completed_at := some now }
      (setJob s j, some j)
  | none => (s, none)

/-- BatchScrapeService.create_batch_job: validate that the target list is
non-empty and every target has both keys, then create the job row; a
validation failure raises ValueError before touching the store. -/
def validTarget (t : Target) : Bool :=
  t.team.isSome && t.year.isSome

/-- BatchScrapeService.create_batch_job (src/services/batch_scrape_service.py,
lines 48-72). Returns the unchanged store together with the raised
ValueError message on validation failure, or the new store and job id. -/
def create_batch_job (s : JobStore) (targets : List Target) (now : Nat) :
    JobStore × Except String Nat :=
  if targets.isEmpty then
    (s, Except.error "Targets list cannot be empty")
  else if targets.all validTarget then
    let p := create_job s targets.length now
    (p.1, Except.ok p.2.id)
  else
    (s, Except.error "Each target must have team and year keys")

/-- The summary dict returned by execute_batch_job. -/
structure BatchSummary where
  job_id : Nat
  total : Nat
  succeeded : Nat
  failed : Nat
  errors : List ErrorInfo
deriving DecidableEq, Repr

/-- The loop-local state of execute_batch_job: the session store plus the
succeeded / failed_count counters and the accumulated errors list. -/
structure LoopState where
  store : JobStore
  succeeded : Nat
  failed_count : Nat
  errors : List ErrorInfo
deriving DecidableEq, Repr

/-- One iteration of the target loop of execute_batch_job. The loop body
first reads target["team"] and target["year"] OUTSIDE the try block
(lines 107-108), so a missing key raises a KeyError that escapes; only
then, inside the try, it invokes scrape_and_store (the oracle at the
current index): on success increment processed, on an exception build
\x7btarget, error, timestamp\x7d, increment failed and append the record, then
continue. -/
def processTarget (oracle : Nat → Option String) (times : Nat → Nat)
    (job_id : Nat) (idx : Nat) (target : Target) (st : LoopState) :
    Except String LoopState :=
  match target.team with
  | none => Except.error "KeyError: 'team'"
  | some _ =>
    match target.year with
    | none => Except.error "KeyError: 'year'"
    | some _ =>
      Except.ok
        (match oracle idx with
         | none =>
             { st with store := (increment_processed st.store job_id).1,
                       succeeded := st.succeeded + 1 }
         | some msg =>
             let error_info : ErrorInfo :=
               { target := target, error := msg, timestamp := times idx }
             { st with
                 store := (increment_failed st.store job_id error_info).1,
                 failed_count := st.failed_count + 1,
                 errors := st.errors ++ [error_info] })

/-- The sequential target loop of execute_batch_job (the asyncio.sleep
rate-limiting delay between targets has no effect on state). A KeyError
from a malformed target aborts the loop, escaping with the state reached
so far; the store keeps the mutations already committed. -/
def processTargets (oracle : Nat → Option String) (times : Nat → Nat)
    (job_id : Nat) : Nat → List Target → LoopState → LoopState × Option String
  | _, [], st => (st, none)
  | idx, t :: ts, st =>
      match processTarget oracle times job_id idx t st with
      | Except.error e => (st, some e)
      | Except.ok st2 => processTargets oracle times job_id (idx + 1) ts st2

/-- BatchScrapeService.execute_batch_job (src/services/batch_scrape_service.py,
lines 74-146): resolve the job (raising ValueError when absent), mark it
running, process every target sequentially, mark it complete, and return the
summary. A KeyError raised by the loop body on a malformed target escapes
before mark_complete, leaving the store as the loop left it. -/
def execute_batch_job (oracle : Nat → Option String) (times : Nat → Nat)
    (doneTime : Nat) (s : JobStore) (job_id : Nat) (targets : List Target) :
    JobStore × Except String BatchSummary :=
  match get_by_id s job_id with
  | none => (s, Except.error ("Job " ++ toString job_id ++ " not found"))
  | some _ =>
      let s1 := (update_job_status s job_id "running").1
      let res := processTargets oracle times job_id 0 targets
        { store := s1, succeeded := 0, failed_count := 0, errors := [] }
      match res.2 with
      | some e => (res.1.store, Except.error e)
      | none =>
          let s2 := (mark_complete res.1.store job_id doneTime).1
          (s2, Except.ok
            { job_id := job_id, total := targets.length,
              succeeded := res.1.succeeded, failed := res.1.failed_count,
              errors := res.1.errors })

/-- The job-status projection returned by BatchScrapeService.get_job_status. -/
structure JobStatusView where
  job_id : Nat
  status : String
  total_urls : Nat
  processed : Nat
  failed : Nat
  errors : Option (List ErrorInfo)
  created_at : Nat
  completed_at : Option Nat
deriving DecidableEq, Repr

/-- BatchScrapeService.get_job_status: read-only projection, or None when the
job id does not resolve. -/
def get_job_status (s : JobStore) (job_id : Nat) : Option JobStatusView :=
  match get_by_id s job_id with
  | none => none
  | some job =>
      some { job_id := job.id, status := job.status,
             total_urls := job.total_urls, processed := job.processed,
             failed := job.failed, errors := job.errors,
             created_at := job.created_at, completed_at := job.completed_at }

/-!
Generic upsert repository (src/repositories/base_repo.py). A stored row is
a storage identity plus its non-private attributes, modelled as an
association list from attribute name to value (Python objects have uniquely
keyed attribute dicts); a candidate object is such an attribute list.
-/

/-- A stored row: storage identity plus the entity attributes
(vars(obj) minus the private and "id" entries). -/
structure Row where
  id : Nat
  fields : List (String × String)
deriving DecidableEq, Repr

/-- The table for one entity family plus the autoincrement id counter. -/
structure RecordStore where
  rows : List Row
  nextId : Nat
deriving DecidableEq, Repr

/-- getattr on the attribute list: the value of the first entry with the
given name. -/
def getField (fields : List (String × String)) (name : String) :
    Option String :=
  (fields.find? (fun p => p.1 == name)).map (fun p => p.2)

/-- setattr on the attribute list: replace the entry when present, add it
otherwise. -/
def setField (fields : List (String × String)) (name val : String) :
    List (String × String) :=
  if (fields.find? (fun p => p.1 == name)).isSome then
    fields.map (fun p => if p.1 == name then (name, val) else p)
  else
    fields ++ [(name, val)]

/-- key.startswith("_") of the Python source: whether the attribute name
begins with an underscore. -/
def isPrivateAttr (s : String) : Bool :=
  match s.data with
  | [] => false
  | ch :: _ => ch == '_'

/-- The overwrite loop of BaseRepository.upsert: for every attribute of the
candidate, skipping private attributes and "id", set it on the existing
row. -/
def overwriteFields (existing obj : List (String × String)) :
    List (String × String) :=
  obj.foldl
    (fun acc kv =>
      if isPrivateAttr kv.1 || kv.1 == "id" then acc
      else setField acc kv.1 kv.2)
    existing

/-- The WHERE clause of BaseRepository.upsert: every unique_fields entry
equals the row's value for that attribute. -/
def matchesKey (unique_fields : List (String × String)) (r : Row) : Bool :=
  unique_fields.all (fun kv => getField r.fields kv.1 == some kv.2)

/-- BaseRepository.upsert (src/repositories/base_repo.py, lines 41-62):
look up the first stored row matching unique_fields; when found, overwrite
every non-private, non-id attribute from the candidate, keeping the row's
storage identity; otherwise insert the candidate as a new row. -/
def upsert (s : RecordStore) (obj : List (String × String))
    (unique_fields : List (String × String)) : RecordStore × Row :=
  match s.rows.find? (matchesKey unique_fields) with
  | some existing =>
      let updated : Row :=
        { existing with fields := overwriteFields existing.fields obj }
      ({ s with rows :=
          s.rows.map (fun r => if r.id == existing.id then updated else r) },
       updated)
  | none =>
      let r : Row := { id := s.nextId, fields := obj }
      ({ rows := s.rows ++ [r], nextId := s.nextId + 1 }, r)

/-!
Injury-report repository (src/repositories/injury_report_repo.py) with its
delete-then-reinsert weekly upsert. Dates are modelled as abstract Nat.
-/

/-- The InjuryReport entity (src/entities/injury_report.py). -/
structure InjuryReport where
  id : Nat
  season : Int
  week : Int
  player_name : String
  team : String
  position : Option String
  designation : String
  injury_type : Option String
  report_date : Option Nat
deriving DecidableEq, Repr

/-- The InjuryReportCreate DTO: the entity attributes without the storage
identity. -/
structure InjuryReportCreate where
  season : Int
  week : Int
  player_name : String
  team : String
  position : Option String
  designation : String
  injury_type : Option String
  report_date : Option Nat
deriving DecidableEq, Repr

/-- The injury_reports table plus the autoincrement id counter. -/
structure InjuryStore where
  rows : List InjuryReport
  nextId : Nat
deriving DecidableEq, Repr

/-- The season-and-week WHERE clause of get_by_week / delete_by_week. -/
def matchesWeek (season week : Int) (r : InjuryReport) : Bool :=
  r.season == season && r.week == week

/-- InjuryReportRepository.get_by_week: all reports for a season and week,
ordered by team then player name (the ordering key of the source query). -/
def get_by_week (s : InjuryStore) (season week : Int) : List InjuryReport :=
  ((s.rows.filter (matchesWeek season week)).mergeSort
    (fun a b =>
      a.team < b.team || (a.team == b.team && a.player_name ≤ b.player_name)))

/-- BaseRepository.delete on an injury report row: the row with that
primary key is removed. -/
def deleteReport (s : InjuryStore) (r : InjuryReport) : InjuryStore :=
  { s with rows := s.rows.filter (fun x => x.id != r.id) }

/-- InjuryReportRepository.delete_by_week: delete every report returned by
get_by_week and report how many there were. -/
def delete_by_week (s : InjuryStore) (season week : Int) :
    InjuryStore × Nat :=
  let reports := get_by_week s season week
  (reports.foldl deleteReport s, reports.length)

/-- InjuryReportRepository.create_from_dto: insert a new entity built from
the DTO; the database assigns the next id. -/
def create_from_dto (s : InjuryStore) (dto : InjuryReportCreate) :
    InjuryStore × InjuryReport :=
  let e : InjuryReport :=
    { id := s.nextId, season := dto.season, week := dto.week,
      player_name := dto.player_name, team := dto.team,
      position := dto.position, designation := dto.designation,
      injury_type := dto.injury_type, report_date := dto.report_date }
  ({ rows := s.rows ++ [e], nextId := s.nextId + 1 }, e)

/-- InjuryReportRepository.upsert_week_reports (lines 132-155): delete the
existing reports for the week, then insert every DTO, returning the created
entities in order. -/
def upsert_week_reports (s : InjuryStore) (season week : Int)
    (dtos : List InjuryReportCreate) : InjuryStore × List InjuryReport :=
  let s1 := (delete_by_week s season week).1
  dtos.foldl
    (fun acc dto =>
      let p := create_from_dto acc.1 dto
      (p.1, acc.2 ++ [p.2]))
    (s1, ([] : List InjuryReport))

/-!
Specification vocabulary used by the theorems: counts of failing and
succeeding scrape calls, the list of error records an execution produces,
the length of a job's (nullable) errors column, the store reached after a
prefix of the execute_batch_job loop, and well-formedness of the stores
(autoincrement discipline: every stored id is below the next id, ids are
distinct).
-/

/-- Number of call indices in [idx, idx+n) at which the scrape oracle
raises. -/
def numFailures (oracle : Nat → Option String) : Nat → Nat → Nat
  | _, 0 => 0
  | idx, n + 1 =>
      (if (oracle idx).isSome then 1 else 0) + numFailures oracle (idx + 1) n

/-- Number of call indices in [idx, idx+n) at which the scrape oracle
succeeds. -/
def numSuccesses (oracle : Nat → Option String) : Nat → Nat → Nat
  | _, 0 => 0
  | idx, n + 1 =>
      (if (oracle idx).isNone then 1 else 0) + numSuccesses oracle (idx + 1) n

/-- The error records produced by running the target loop on the given
targets starting at call index idx. -/
def errorList (oracle : Nat → Option String) (times : Nat → Nat) :
    Nat → List Target → List ErrorInfo
  | _, [] => []
  | idx, t :: ts =>
      (match oracle idx with
       | some msg => [{ target := t, error := msg, timestamp := times idx }]
       | none => []) ++ errorList oracle times (idx + 1) ts

/-- Length of a job's errors column, the NULL column counting as empty. -/
def errsLen (j : ScrapeJob) : Nat :=
  (j.errors.getD []).length

/-- The store reached by execute_batch_job after marking the job running and
processing the first k targets (an intermediate point of its loop). -/
def stateAfter (oracle : Nat → Option String) (times : Nat → Nat)
    (s : JobStore) (job_id : Nat) (targets : List Target) (k : Nat) : JobStore :=
  (processTargets oracle times job_id 0 (targets.take k)
    { store := (update_job_status s job_id "running").1,
      succeeded := 0, failed_count := 0, errors := [] }).1.store

/-- Autoincrement discipline of the record store: ids are below nextId and
pairwise distinct. -/
def RecordStore.WF (s : RecordStore) : Prop :=
  (∀ r ∈ s.rows, r.id < s.nextId) ∧ (s.rows.map (fun r => r.id)).Nodup

/-- Autoincrement discipline of the injury-report store. -/
def InjuryStore.WF (s : InjuryStore) : Prop :=
  ∀ r ∈ s.rows, r.id < s.nextId

/-- The entities create_from_dto builds from consecutive autoincrement ids,
starting at the given id. -/
def entitiesFrom (start : Nat) : List InjuryReportCreate → List InjuryReport
  | [] => []
  | dto :: rest =>
      { id := start, season := dto.season, week := dto.week,
        player_name := dto.player_name, team := dto.team,
        position := dto.position, designation := dto.designation,
        injury_type := dto.injury_type, report_date := dto.report_date } ::
      entitiesFrom (start + 1) rest

/-!
Concrete sample inputs used to instantiate the theorems: the scenario of
spec section 8 (two targets, the second target's scrape raising
"scrape failed").
-/

/-- Sample target \x7bteam: chiefs, year: 2024\x7d. -/
def wT1 : Target :=
  { team := some "chiefs", year := some 2024 }

/-- Sample target \x7bteam: bills, year: 2024\x7d. -/
def wT2 : Target :=
  { team := some "bills", year := some 2024 }

/-- Sample two-target batch. -/
def wTargets : List Target :=
  [wT1, wT2]

/-- Sample oracle: the second scrape call raises "scrape failed". -/
def wOracle : Nat → Option String :=
  fun i => if i == 1 then some "scrape failed" else none

/-- Sample oracle: every scrape call raises "scrape failed". -/
def wOracleAllFail : Nat → Option String :=
  fun _ => some "scrape failed"

/-- Sample error record for the first target. -/
def wErr1 : ErrorInfo :=
  { target := wT1, error := "scrape failed", timestamp := 0 }

/-- Sample error record for the second target. -/
def wErr2 : ErrorInfo :=
  { target := wT2, error := "scrape failed", timestamp := 1 }

/-- Sample clock. -/
def wTimes : Nat → Nat :=
  fun i => i

/-- Empty job store. -/
def wStore0 : JobStore :=
  { jobs := [], nextId := 0 }

/-- Job store holding one freshly created two-target job. -/
def wStore1 : JobStore :=
  (create_job wStore0 2 5).1

/-- The freshly created job of wStore1. -/
def wJob1 : ScrapeJob :=
  (create_job wStore0 2 5).2

/-- Sample malformed target: the year key is present but team is missing. -/
def wBad : Target :=
  { team := none, year := some 2024 }

/-- Sample invalid batch containing the malformed target. -/
def wBadTargets : List Target :=
  [wBad]

/-- Empty record store. -/
def wRecStore0 : RecordStore :=
  { rows := [], nextId := 0 }

/-- First upsert candidate: a player-season stat record. -/
def wCand1 : List (String × String) :=
  [("player_name", "Mahomes"), ("season", "2024"), ("team", "KC"),
   ("yards", "100")]

/-- Second upsert candidate: same natural key, different non-key value. -/
def wCand2 : List (String × String) :=
  [("player_name", "Mahomes"), ("season", "2024"), ("team", "KC"),
   ("yards", "250")]

/-- The natural key of the sample candidates. -/
def wKey : List (String × String) :=
  [("player_name", "Mahomes"), ("season", "2024"), ("team", "KC")]

/-- Empty injury-report store. -/
def wInjStore0 : InjuryStore :=
  { rows := [], nextId := 0 }

/-- Sample injury-report DTO for season 2024, week 5. -/
def wDto (name : String) : InjuryReportCreate :=
  { season := 2024, week := 5, player_name := name, team := "KC",
    position := none, designation := "Questionable",
    injury_type := some "ankle", report_date := none }

/-- First weekly batch: three reports. -/
def wDtos1 : List InjuryReportCreate :=
  [wDto "Alpha", wDto "Bravo", wDto "Charlie"]

/-- Second weekly batch: two different reports. -/
def wDtos2 : List InjuryReportCreate :=
  [wDto "Delta", wDto "Echo"]

/-! Generic list lemmas about find? and filter. -/

lemma find_append_of_all_false {α : Type} (p : α → Bool) (l : List α) (x : α)
    (hl : ∀ a ∈ l, p a = false) (hx : p x = true) :
    (l ++ [x]).find? p = some x := by
  induction l with
  | nil => simp [List.find?, hx]
  | cons a l ih =>
      have ha := hl a (by simp)
      simp only [List.cons_append, List.find?, ha]
      exact ih (fun b hb => hl b (by simp [hb]))

lemma find_of_filter_singleton {α : Type} (p : α → Bool) (l : List α) (x : α)
    (h : l.filter p = [x]) : l.find? p = some x := by
  induction l with
  | nil => simp at h
  | cons a l ih =>
      by_cases ha : p a
      · rw [List.filter_cons_of_pos ha] at h
        have hax : a = x := List.head_eq_of_cons_eq h
        subst hax
        simp [List.find?, ha]
      · rw [List.filter_cons_of_neg (by simpa using ha)] at h
        have ha2 : p a = false := by simpa using ha
        simp only [List.find?, ha2]
        exact ih h

lemma filter_singleton_of_mem {α : Type} (p : α → Bool) (l : List α) (x : α)
    (hx : x ∈ l) (hpx : p x = true) (hlen : (l.filter p).length ≤ 1) :
    l.filter p = [x] := by
  have hmem : x ∈ l.filter p := List.mem_filter.2 ⟨hx, hpx⟩
  match hflt : l.filter p with
  | [] => rw [hflt] at hmem; simp at hmem
  | [y] =>
      rw [hflt] at hmem
      simp at hmem
      rw [hmem]
  | y :: z :: rest => rw [hflt] at hlen; simp at hlen

/-- Replacing the row found by get_by_id with a row of the same id makes
get_by_id return the replacement. -/
lemma find_map_update (l : List ScrapeJob) (job_id : Nat) (j j2 : ScrapeJob)
    (h : l.find? (fun x => x.id == job_id) = some j) (hid : j2.id = j.id) :
    (l.map (fun x => if x.id == j2.id then j2 else x)).find?
      (fun x => x.id == job_id) = some j2 := by
  induction l with
  | nil => simp [List.find?] at h
  | cons a l ih =>
      by_cases ha : (a.id == job_id) = true
      · have haj : a = j := by
          simp only [List.find?, ha] at h
          exact Option.some.inj h
        have hj : (j.id == job_id) = true := by rw [← haj]; exact ha
        have haid : (a.id == j2.id) = true := by
          rw [haj, hid]; simp
        have hj2 : (j2.id == job_id) = true := by
          rw [hid]; rw [haj] at ha; exact ha
        have hrw : (if (a.id == j2.id) = true then j2 else a) = j2 := by
          simp [haid]
        simp only [List.map, hrw, List.find?, hj2]
      · have ha2 : (a.id == job_id) = false := by
          simpa using ha
        simp only [List.find?, ha2] at h
        have hjid : j.id = job_id := by
          have := List.find?_some h
          simpa using this
        have haid : (a.id == j2.id) = false := by
          have : a.id ≠ job_id := by simpa using ha
          rw [hid, hjid]
          simpa using this
        have hrw : (if (a.id == j2.id) = true then j2 else a) = a := by
          simp [haid]
        simp only [List.map, hrw, List.find?, ha2]
        exact ih h

lemma get_by_id_setJob (s : JobStore) (job_id : Nat) (j j2 : ScrapeJob)
    (h : get_by_id s job_id = some j) (hid : j2.id = j.id) :
    get_by_id (setJob s j2) job_id = some j2 :=
  find_map_update s.jobs job_id j j2 h hid

/-! Arithmetic facts about the success / failure counts. -/

lemma numSuccesses_add_numFailures (oracle : Nat → Option String) :
    ∀ (n idx : Nat), numSuccesses oracle idx n + numFailures oracle idx n = n := by
  intro n
  induction n with
  | zero => intro idx; simp [numSuccesses, numFailures]
  | succ n ih =>
      intro idx
      have h := ih (idx + 1)
      cases hc : oracle idx <;> simp [numSuccesses, numFailures, hc] <;> omega

lemma errorList_length (oracle : Nat → Option String) (times : Nat → Nat) :
    ∀ (ts : List Target) (idx : Nat),
      (errorList oracle times idx ts).length = numFailures oracle idx ts.length := by
  intro ts
  induction ts with
  | nil => intro idx; simp [errorList, numFailures]
  | cons t ts ih =>
      intro idx
      cases hc : oracle idx with
      | none => simp [errorList, numFailures, hc, ih (idx + 1)]
      | some m =>
          simp [errorList, numFailures, hc, ih (idx + 1)]
          omega

lemma errorList_mem (oracle : Nat → Option String) (times : Nat → Nat) :
    ∀ (ts : List Target) (idx i : Nat) (hi : i < ts.length) (msg : String),
      oracle (idx + i) = some msg →
      ({ target := ts.get ⟨i, hi⟩, error := msg,
         timestamp := times (idx + i) } : ErrorInfo) ∈
        errorList oracle times idx ts := by
  intro ts
  induction ts with
  | nil => intro idx i hi; simp at hi
  | cons t ts ih =>
      intro idx i hi msg hmsg
      cases i with
      | zero =>
          simp only [Nat.add_zero] at hmsg
          simp [errorList, hmsg]
      | succ i =>
          have hi2 : i < ts.length := by simpa using hi
          have htime : idx + (i + 1) = (idx + 1) + i := by omega
          have hmsg2 : oracle ((idx + 1) + i) = some msg := by
            rw [← htime]; exact hmsg
          have hmem := ih (idx + 1) i hi2 msg hmsg2
          have hget : (t :: ts).get ⟨i + 1, hi⟩ = ts.get ⟨i, hi2⟩ := rfl
          rw [hget, htime]
          cases hc : oracle idx with
          | none =>
              simp only [errorList, hc, List.nil_append]
              exact hmem
          | some m2 =>
              simp only [errorList, hc]
              exact List.mem_append_right _ hmem

/-- A found-job step of increment_failed: the store gets the job with
failed incremented (the errors column per the untracked-JSON semantics),
all other columns untouched. -/
lemma increment_failed_step (s : JobStore) (job_id : Nat) (e : ErrorInfo)
    (j : ScrapeJob) (h : get_by_id s job_id = some j) :
    ∃ j1, increment_failed s job_id e = (setJob s j1, some j1) ∧
      j1.id = j.id ∧ j1.status = j.status ∧ j1.total_urls = j.total_urls ∧
      j1.created_at = j.created_at ∧ j1.completed_at = j.completed_at ∧
      j1.processed = j.processed ∧ j1.failed = j.failed + 1 :=
  ⟨{ j with failed := j.failed + 1,
            errors := match j.errors with
                      | none => some [e]
                      | some l => some l },
   by simp [increment_failed, h], rfl, rfl, rfl, rfl, rfl, rfl, rfl⟩

/-- Characterisation of the loop-local counters of execute_batch_job on
well-formed targets (both keys present, so no KeyError): the loop
completes and succeeded / failed_count / errors accumulate the oracle's
successes, failures and error records. -/
lemma processTargets_counters (oracle : Nat → Option String) (times : Nat → Nat)
    (job_id : Nat) :
    ∀ (ts : List Target) (idx : Nat) (st : LoopState),
      (∀ t ∈ ts, validTarget t = true) →
      (processTargets oracle times job_id idx ts st).2 = none ∧
      (processTargets oracle times job_id idx ts st).1.succeeded =
          st.succeeded + numSuccesses oracle idx ts.length ∧
      (processTargets oracle times job_id idx ts st).1.failed_count =
          st.failed_count + numFailures oracle idx ts.length ∧
      (processTargets oracle times job_id idx ts st).1.errors =
          st.errors ++ errorList oracle times idx ts := by
  intro ts
  induction ts with
  | nil =>
      intro idx st _
      simp [processTargets, numSuccesses, numFailures, errorList]
  | cons t ts ih =>
      intro idx st hv
      have hvt := hv t (List.mem_cons_self t ts)
      rw [validTarget, Bool.and_eq_true] at hvt
      obtain ⟨a, hteam⟩ := Option.isSome_iff_exists.1 hvt.1
      obtain ⟨b, hyear⟩ := Option.isSome_iff_exists.1 hvt.2
      have hvrest : ∀ x ∈ ts, validTarget x = true :=
        fun x hx => hv x (List.mem_cons_of_mem t hx)
      cases hc : oracle idx with
      | none =>
          have hstep : processTargets oracle times job_id idx (t :: ts) st =
              processTargets oracle times job_id (idx + 1) ts
                { st with store := (increment_processed st.store job_id).1,
                          succeeded := st.succeeded + 1 } := by
            simp [processTargets, processTarget, hteam, hyear, hc]
          obtain ⟨h0, h1, h2, h3⟩ := ih (idx + 1)
            { st with store := (increment_processed st.store job_id).1,
                      succeeded := st.succeeded + 1 } hvrest
          rw [hstep]
          refine ⟨h0, ?_, ?_, ?_⟩
          · rw [h1]; simp [numSuccesses, hc]; omega
          · rw [h2]; simp [numFailures, hc]
          · rw [h3]; simp [errorList, hc]
      | some msg =>
          have hstep : processTargets oracle times job_id idx (t :: ts) st =
              processTargets oracle times job_id (idx + 1) ts
                { st with store := (increment_failed st.store job_id
                    { target := t, error := msg, timestamp := times idx }).1,
                          failed_count := st.failed_count + 1,
                          errors := st.errors ++
                            [{ target := t, error := msg,
                               timestamp := times idx }] } := by
            simp [processTargets, processTarget, hteam, hyear, hc]
          obtain ⟨h0, h1, h2, h3⟩ := ih (idx + 1)
            { st with store := (increment_failed st.store job_id
                { target := t, error := msg, timestamp := times idx }).1,
                      failed_count := st.failed_count + 1,
                      errors := st.errors ++
                        [{ target := t, error := msg,
                           timestamp := times idx }] } hvrest
          rw [hstep]
          refine ⟨h0, ?_, ?_, ?_⟩
          · rw [h1]; simp [numSuccesses, hc]
          · rw [h2]; simp [numFailures, hc]; omega
          · rw [h3]; simp [errorList, hc]

/-- Characterisation of the job row across the target loop of
execute_batch_job on well-formed targets: processed and failed grow by the
success and failure counts and all other columns are untouched (the errors
column is tracked separately, see increment_failed). -/
lemma processTargets_job (oracle : Nat → Option String) (times : Nat → Nat)
    (job_id : Nat) :
    ∀ (ts : List Target) (idx : Nat) (st : LoopState) (j : ScrapeJob),
      (∀ t ∈ ts, validTarget t = true) →
      get_by_id st.store job_id = some j →
      ∃ j2, get_by_id (processTargets oracle times job_id idx ts st).1.store
          job_id = some j2 ∧
        j2.id = j.id ∧ j2.status = j.status ∧ j2.total_urls = j.total_urls ∧
        j2.created_at = j.created_at ∧ j2.completed_at = j.completed_at ∧
        j2.processed = j.processed + numSuccesses oracle idx ts.length ∧
        j2.failed = j.failed + numFailures oracle idx ts.length := by
  intro ts
  induction ts with
  | nil =>
      intro idx st j _ h
      exact ⟨j, h, rfl, rfl, rfl, rfl, rfl,
        by simp [numSuccesses], by simp [numFailures]⟩
  | cons t ts ih =>
      intro idx st j hv h
      have hvt := hv t (List.mem_cons_self t ts)
      rw [validTarget, Bool.and_eq_true] at hvt
      obtain ⟨a, hteam⟩ := Option.isSome_iff_exists.1 hvt.1
      obtain ⟨b, hyear⟩ := Option.isSome_iff_exists.1 hvt.2
      have hvrest : ∀ x ∈ ts, validTarget x = true :=
        fun x hx => hv x (List.mem_cons_of_mem t hx)
      cases hc : oracle idx with
      | none =>
          have hop : increment_processed st.store job_id =
              (setJob st.store { j with processed := j.processed + 1 },
               some { j with processed := j.processed + 1 }) := by
            simp [increment_processed, h]
          have h1 : get_by_id
              ({ st with store := (increment_processed st.store job_id).1,
                         succeeded := st.succeeded + 1 } : LoopState).store
              job_id = some { j with processed := j.processed + 1 } := by
            simp only [hop]
            exact get_by_id_setJob st.store job_id j _ h rfl
          have hstep : processTargets oracle times job_id idx (t :: ts) st =
              processTargets oracle times job_id (idx + 1) ts
                { st with store := (increment_processed st.store job_id).1,
                          succeeded := st.succeeded + 1 } := by
            simp [processTargets, processTarget, hteam, hyear, hc]
          obtain ⟨j2, hj2, hid, hst, htot, hcr, hcmp, hproc, hfail⟩ :=
            ih (idx + 1) _ _ hvrest h1
          rw [hstep]
          refine ⟨j2, hj2, hid, hst, htot, hcr, hcmp, ?_, ?_⟩
          · rw [hproc]; simp [numSuccesses, hc]; omega
          · rw [hfail]; simp [numFailures, hc]
      | some msg =>
          obtain ⟨j1, hop, hid1, hst1, htot1, hcr1, hcmp1, hproc1, hfail1⟩ :=
            increment_failed_step st.store job_id
              { target := t, error := msg, timestamp := times idx } j h
          have h1 : get_by_id
              ({ st with store := (increment_failed st.store job_id
                   { target := t, error := msg, timestamp := times idx }).1,
                         failed_count := st.failed_count + 1,
                         errors := st.errors ++
                           [{ target := t, error := msg,
                              timestamp := times idx }] } : LoopState).store
              job_id = some j1 := by
            simp only [hop]
            exact get_by_id_setJob st.store job_id j j1 h hid1
          have hstep : processTargets oracle times job_id idx (t :: ts) st =
              processTargets oracle times job_id (idx + 1) ts
                { st with store := (increment_failed st.store job_id
                    { target := t, error := msg, timestamp := times idx }).1,
                          failed_count := st.failed_count + 1,
                          errors := st.errors ++
                            [{ target := t, error := msg,
                               timestamp := times idx }] } := by
            simp [processTargets, processTarget, hteam, hyear, hc]
          obtain ⟨j2, hj2, hid, hst, htot, hcr, hcmp, hproc, hfail⟩ :=
            ih (idx + 1) _ _ hvrest h1
          rw [hstep]
          refine ⟨j2, hj2, hid.trans hid1, hst.trans hst1,
            htot.trans htot1, hcr.trans hcr1, hcmp.trans hcmp1, ?_, ?_⟩
          · rw [hproc, hproc1]; simp [numSuccesses, hc]
          · rw [hfail, hfail1]; simp [numFailures, hc]; omega

/-- Full characterisation of execute_batch_job on an existing job and
well-formed targets: the returned summary counts the oracle's successes
and failures and carries the accumulated error records, and the stored job
ends complete with its counters advanced accordingly. -/
lemma execute_batch_job_spec (oracle : Nat → Option String) (times : Nat → Nat)
    (doneTime : Nat) (s : JobStore) (job_id : Nat) (targets : List Target)
    (j : ScrapeJob) (h : get_by_id s job_id = some j)
    (hval : ∀ t ∈ targets, validTarget t = true) :
    (execute_batch_job oracle times doneTime s job_id targets).2 =
      Except.ok { job_id := job_id, total := targets.length,
                  succeeded := numSuccesses oracle 0 targets.length,
                  failed := numFailures oracle 0 targets.length,
                  errors := errorList oracle times 0 targets } ∧
    ∃ j2, get_by_id (execute_batch_job oracle times doneTime s job_id
        targets).1 job_id = some j2 ∧
      j2.id = j.id ∧ j2.status = "complete" ∧ j2.total_urls = j.total_urls ∧
      j2.created_at = j.created_at ∧ j2.completed_at = some doneTime ∧
      j2.processed = j.processed + numSuccesses oracle 0 targets.length ∧
      j2.failed = j.failed + numFailures oracle 0 targets.length := by
  have hrun : update_job_status s job_id "running" =
      (setJob s { j with status := "running" },
       some { j with status := "running" }) := by
    simp [update_job_status, h]
  have h1 : get_by_id
      ({ store := (update_job_status s job_id "running").1,
         succeeded := 0, failed_count := 0, errors := [] } : LoopState).store
      job_id = some { j with status := "running" } := by
    simp only [hrun]
    exact get_by_id_setJob s job_id j _ h rfl
  obtain ⟨j2, hj2, hid, hst, htot, hcr, hcmp, hproc, hfail⟩ :=
    processTargets_job oracle times job_id targets 0
      { store := (update_job_status s job_id "running").1,
        succeeded := 0, failed_count := 0, errors := [] } _ hval h1
  obtain ⟨h0, hc1, hc2, hc3⟩ :=
    processTargets_counters oracle times job_id targets 0
      { store := (update_job_status s job_id "running").1,
        succeeded := 0, failed_count := 0, errors := [] } hval
  have hmc : mark_complete (processTargets oracle times job_id 0 targets
      { store := (update_job_status s job_id "running").1,
        succeeded := 0, failed_count := 0, errors := [] }).1.store
      job_id doneTime =
      (setJob (processTargets oracle times job_id 0 targets
          { store := (update_job_status s job_id "running").1,
            succeeded := 0, failed_count := 0, errors := [] }).1.store
        { j2 with status := "complete", completed_at := some doneTime },
       some { j2 with status := "complete",
                      completed_at := some doneTime }) := by
    simp [mark_complete, hj2]
  have h2 : get_by_id (mark_complete (processTargets oracle times job_id 0
      targets { store := (update_job_status s job_id "running").1,
                succeeded := 0, failed_count := 0, errors := [] }).1.store
      job_id doneTime).1 job_id =
      some { j2 with status := "complete",
                     completed_at := some doneTime } := by
    simp only [hmc]
    exact get_by_id_setJob _ job_id j2 _ hj2 rfl
  constructor
  · simp only [execute_batch_job, h, h0]
    rw [hc1, hc2, hc3]
    simp
  · refine ⟨{ j2 with status := "complete", completed_at := some doneTime },
      ?_, ?_, rfl, ?_, ?_, rfl, ?_, ?_⟩
    · simp only [execute_batch_job, h, h0]
      exact h2
    · exact hid
    · exact htot
    · exact hcr
    · exact hproc
    · exact hfail

/-! Helper lemmas for the create path and the per-stage job views. -/

lemma mem_of_get_by_id (s : JobStore) (job_id : Nat) (j : ScrapeJob)
    (h : get_by_id s job_id = some j) : j ∈ s.jobs :=
  List.mem_of_find?_eq_some h

/-- A successful create_batch_job appended exactly the fresh pending job and
returned its id. -/
lemma create_batch_job_ok (s : JobStore) (targets : List Target) (now : Nat)
    (s1 : JobStore) (jid : Nat)
    (hcreate : create_batch_job s targets now = (s1, Except.ok jid)) :
    s1 = { jobs := s.jobs ++
                     [{ id := s.nextId, status := "pending",
                        total_urls := targets.length, processed := 0,
                        failed := 0, errors := none, created_at := now,
                        completed_at := none }],
           nextId := s.nextId + 1 } ∧ jid = s.nextId := by
  by_cases hemp : targets.isEmpty
  · simp [create_batch_job, hemp] at hcreate
  · by_cases hall : targets.all validTarget
    · simp [create_batch_job, hemp, hall, create_job] at hcreate
      exact ⟨hcreate.1.symm, hcreate.2.symm⟩
    · simp [create_batch_job, hemp, hall] at hcreate

/-- In a well-formed store the freshly created job is found under its
assigned id. -/
lemma get_by_id_create (s : JobStore)
    (hwf : ∀ jb ∈ s.jobs, jb.id < s.nextId) (n now : Nat) :
    get_by_id (create_job s n now).1 s.nextId =
      some (create_job s n now).2 := by
  apply find_append_of_all_false
  · intro a ha
    have := hwf a ha
    simp only [beq_eq_false_iff_ne, ne_eq]
    omega
  · simp

/-- A successful create_batch_job also certifies that every target passed
validation. -/
lemma create_batch_job_ok_valid (s : JobStore) (targets : List Target)
    (now : Nat) (s1 : JobStore) (jid : Nat)
    (hcreate : create_batch_job s targets now = (s1, Except.ok jid)) :
    ∀ t ∈ targets, validTarget t = true := by
  by_cases hemp : targets.isEmpty
  · simp [create_batch_job, hemp] at hcreate
  · by_cases hall : targets.all validTarget
    · exact List.all_eq_true.1 hall
    · simp [create_batch_job, hemp, hall] at hcreate

/-- The job view at an intermediate point of the execute_batch_job loop on
well-formed targets: status running, total untouched, counters advanced by
the success and failure counts of the processed prefix. -/
lemma stateAfter_spec (oracle : Nat → Option String) (times : Nat → Nat)
    (s1 : JobStore) (jid : Nat) (targets : List Target) (j : ScrapeJob)
    (h : get_by_id s1 jid = some j) (k : Nat)
    (hval : ∀ t ∈ targets.take k, validTarget t = true) :
    ∃ j2, get_by_id (stateAfter oracle times s1 jid targets k) jid =
        some j2 ∧
      j2.status = "running" ∧ j2.total_urls = j.total_urls ∧
      j2.processed = j.processed +
        numSuccesses oracle 0 (targets.take k).length ∧
      j2.failed = j.failed + numFailures oracle 0 (targets.take k).length := by
  have hrun : update_job_status s1 jid "running" =
      (setJob s1 { j with status := "running" },
       some { j with status := "running" }) := by
    simp [update_job_status, h]
  have h1 : get_by_id
      ({ store := (update_job_status s1 jid "running").1,
         succeeded := 0, failed_count := 0, errors := [] } : LoopState).store
      jid = some { j with status := "running" } := by
    simp only [hrun]
    exact get_by_id_setJob s1 jid j _ h rfl
  obtain ⟨j2, hj2, hid, hst, htot, hcr, hcmp, hproc, hfail⟩ :=
    processTargets_job oracle times jid (targets.take k) 0
      { store := (update_job_status s1 jid "running").1,
        succeeded := 0, failed_count := 0, errors := [] } _ hval h1
  exact ⟨j2, hj2, hst, htot, hproc, hfail⟩

/-- C1: evaluating the code at the failing input: a fresh two-target job
whose two (well-formed) targets both raise. The summary and the failed
counter reach 2 and the job completes, but the stored errors column ends at
length 1, not k = 2 — the second in-place append to the plain JSON column
is never flushed and the refresh in BaseRepository.update discards it —
contradicting the claimed errors.length == k (and the repository's own
test asserting two accumulated errors). -/
theorem c1_errors_column_loses_records :
    (execute_batch_job wOracleAllFail wTimes 99 wStore1 0 wTargets).2 =
      Except.ok { job_id := 0, total := 2, succeeded := 0, failed := 2,
                  errors := [wErr1, wErr2] } ∧
    numFailures wOracleAllFail 0 wTargets.length = 2 ∧
    ∃ j2, get_by_id (execute_batch_job wOracleAllFail wTimes 99 wStore1 0
        wTargets).1 0 = some j2 ∧
      j2.processed = 0 ∧ j2.failed = 2 ∧ errsLen j2 = 1 ∧
      j2.status = "complete" ∧ j2.completed_at = some 99 :=
  ⟨rfl, rfl, ⟨_, rfl, rfl, rfl, rfl, rfl, rfl⟩⟩

/-- C2 counterexample: with the job present (execution past the not-found
entry check), a target missing the team key makes execute_batch_job escape
with a KeyError raised at the top of the loop body — an exception that is
neither job-not-found at entry nor a creation-time validation failure —
refuting "the orchestrator never raises once it begins processing
targets" as stated. -/
theorem c2_counterexample :
    get_by_id wStore1 0 = some wJob1 ∧
    (execute_batch_job wOracle wTimes 99 wStore1 0 wBadTargets).2 =
      Except.error "KeyError: 'team'" ∧
    "KeyError: 'team'" ≠ "Job " ++ toString 0 ++ " not found" :=
  ⟨rfl, rfl, by decide⟩

/-- C2 (amended): once execute_batch_job begins processing targets whose
elements all carry the team and year keys, it never raises: every raising
scrape call is captured as \x7btarget, error, timestamp\x7d and processing
continues; besides creation-time validation failures, the escaping
exceptions are job-not-found at entry and the KeyError read of a missing
team/year key at the top of the loop body. -/
theorem c2_orchestrator_never_raises (oracle : Nat → Option String)
    (times : Nat → Nat) (doneTime : Nat) (s : JobStore) (job_id : Nat)
    (targets : List Target) :
    (∀ j, get_by_id s job_id = some j →
      (∀ t ∈ targets, validTarget t = true) →
      ∃ summary,
        (execute_batch_job oracle times doneTime s job_id targets).2 =
          Except.ok summary ∧
        summary.total = targets.length ∧
        summary.failed = numFailures oracle 0 targets.length ∧
        summary.errors = errorList oracle times 0 targets ∧
        (∀ i (hi : i < targets.length) (msg : String), oracle i = some msg →
          ({ target := targets.get ⟨i, hi⟩, error := msg,
             timestamp := times i } : ErrorInfo) ∈ summary.errors)) ∧
    (get_by_id s job_id = none →
      execute_batch_job oracle times doneTime s job_id targets =
        (s, Except.error ("Job " ++ toString job_id ++ " not found"))) := by
  constructor
  · intro j h hval
    obtain ⟨hsum, _⟩ :=
      execute_batch_job_spec oracle times doneTime s job_id targets j h hval
    refine ⟨_, hsum, rfl, rfl, rfl, ?_⟩
    intro i hi msg hmsg
    have hmem := errorList_mem oracle times targets 0 i hi msg
      (by simpa using hmsg)
    simpa using hmem
  · intro h
    simp [execute_batch_job, h]

/-- C2 witness: the two-target well-formed scenario instantiating both
branches (the job exists in wStore1; no job exists in the empty store). -/
theorem c2_witness :
    (∃ summary,
        (execute_batch_job wOracle wTimes 99 wStore1 0 wTargets).2 =
          Except.ok summary ∧
        summary.total = wTargets.length ∧
        summary.failed = numFailures wOracle 0 wTargets.length ∧
        summary.errors = errorList wOracle wTimes 0 wTargets ∧
        (∀ i (hi : i < wTargets.length) (msg : String),
          wOracle i = some msg →
          ({ target := wTargets.get ⟨i, hi⟩, error := msg,
             timestamp := wTimes i } : ErrorInfo) ∈ summary.errors)) ∧
    execute_batch_job wOracle wTimes 99 wStore0 0 wTargets =
      (wStore0, Except.error ("Job " ++ toString 0 ++ " not found")) :=
  ⟨(c2_orchestrator_never_raises wOracle wTimes 99 wStore1 0 wTargets).1
      wJob1 (by rfl) (by decide),
   (c2_orchestrator_never_raises wOracle wTimes 99 wStore0 0 wTargets).2
      (by rfl)⟩

/-- C8: on an unresolved job id every repository operation returns the
not-found sentinel and leaves the store unchanged, get_job_status returns
the explicit null, and only execute_batch_job turns the failed lookup into
a raised error. -/
theorem c8_not_found_is_sentinel (s : JobStore) (job_id doneTime : Nat)
    (st : String) (e : ErrorInfo) (oracle : Nat → Option String)
    (times : Nat → Nat) (targets : List Target)
    (h : get_by_id s job_id = none) :
    update_job_status s job_id st = (s, none) ∧
    increment_processed s job_id = (s, none) ∧
    increment_failed s job_id e = (s, none) ∧
    mark_complete s job_id doneTime = (s, none) ∧
    get_job_status s job_id = none ∧
    execute_batch_job oracle times doneTime s job_id targets =
      (s, Except.error ("Job " ++ toString job_id ++ " not found")) := by
  refine ⟨?_, ?_, ?_, ?_, ?_, ?_⟩ <;>
    simp [update_job_status, increment_processed, increment_failed,
          mark_complete, get_job_status, execute_batch_job, h]

/-- C8 witness: job id 7 in the empty store. -/
theorem c8_witness :
    update_job_status wStore0 7 "running" = (wStore0, none) ∧
    increment_processed wStore0 7 = (wStore0, none) ∧
    increment_failed wStore0 7
      { target := wT1, error := "boom", timestamp := 0 } = (wStore0, none) ∧
    mark_complete wStore0 7 99 = (wStore0, none) ∧
    get_job_status wStore0 7 = none ∧
    execute_batch_job wOracle wTimes 99 wStore0 7 wTargets =
      (wStore0, Except.error ("Job " ++ toString 7 ++ " not found")) :=
  c8_not_found_is_sentinel wStore0 7 99 "running"
    { target := wT1, error := "boom", timestamp := 0 }
    wOracle wTimes wTargets (by rfl)

/-- C5: for a non-empty target list whose every element has both team and
year, create_batch_job appends exactly one new job in status pending with
total_urls = number of targets, zero counters, empty errors and
created_at = now, and returns the job's assigned identity. -/
theorem c5_createBatchJob_valid (s : JobStore) (targets : List Target)
    (now : Nat) (hne : targets ≠ [])
    (hval : ∀ t ∈ targets, validTarget t = true) :
    ∃ job, create_batch_job s targets now =
        ({ jobs := s.jobs ++ [job], nextId := s.nextId + 1 },
         Except.ok job.id) ∧
      job.id = s.nextId ∧ job.status = "pending" ∧
      job.total_urls = targets.length ∧ job.processed = 0 ∧
      job.failed = 0 ∧ errsLen job = 0 ∧ job.created_at = now ∧
      job.completed_at = none := by
  refine ⟨{ id := s.nextId, status := "pending",
            total_urls := targets.length, processed := 0, failed := 0,
            errors := none, created_at := now, completed_at := none },
    ?_, rfl, rfl, rfl, rfl, rfl, rfl, rfl, rfl⟩
  have h1 : targets.isEmpty = false := by
    cases targets with
    | nil => exact absurd rfl hne
    | cons a l => rfl
  have h2 : targets.all validTarget = true := List.all_eq_true.2 hval
  simp [create_batch_job, h1, h2, create_job]

/-- C5 witness: the two-target chiefs/bills batch on the empty store. -/
theorem c5_witness :
    ∃ job, create_batch_job wStore0 wTargets 5 =
        ({ jobs := wStore0.jobs ++ [job], nextId := wStore0.nextId + 1 },
         Except.ok job.id) ∧
      job.id = wStore0.nextId ∧ job.status = "pending" ∧
      job.total_urls = wTargets.length ∧ job.processed = 0 ∧
      job.failed = 0 ∧ errsLen job = 0 ∧ job.created_at = 5 ∧
      job.completed_at = none :=
  c5_createBatchJob_valid wStore0 wTargets 5 (by decide) (by decide)

/-- C6: for an empty target list, or one containing an element missing the
team or year key, create_batch_job raises a ValueError and leaves the
stored jobs unchanged. -/
theorem c6_createBatchJob_invalid (s : JobStore) (targets : List Target)
    (now : Nat)
    (h : targets = [] ∨ ∃ t ∈ targets, validTarget t = false) :
    ∃ msg, create_batch_job s targets now = (s, Except.error msg) := by
  rcases h with h | ⟨t, ht, hv⟩
  · subst h
    exact ⟨"Targets list cannot be empty", by simp [create_batch_job]⟩
  · have h1 : targets.isEmpty = false := by
      cases targets with
      | nil => simp at ht
      | cons a l => rfl
    have h2 : targets.all validTarget = false := by
      cases hall : targets.all validTarget with
      | false => rfl
      | true =>
          rw [List.all_eq_true] at hall
          rw [hall t ht] at hv
          cases hv
    exact ⟨"Each target must have team and year keys",
      by simp [create_batch_job, h1, h2]⟩

/-- C6 witness: a batch whose only target is missing the team key. -/
theorem c6_witness :
    ∃ msg, create_batch_job wStore0 wBadTargets 5 =
      (wStore0, Except.error msg) :=
  c6_createBatchJob_invalid wStore0 wBadTargets 5
    (Or.inr ⟨wBad, by decide, by decide⟩)

/-- C7: evaluating the code at the failing input: two increment_failed
calls on a fresh job leave failed = 2 but an errors column of length 1.
The second in-place append to the plain JSON errors column raises no
attribute event, commit flushes only failed, and the refresh in
BaseRepository.update reloads the stale single-record list — so
errors.length == failed is violated from the second failure on, although
the claim matches the documented intent and the repository's own test
(test_increment_failed_multiple_errors asserts two accumulated errors). -/
theorem c7_second_append_is_lost :
    ∃ j, get_by_id
        (increment_failed (increment_failed wStore1 0 wErr1).1 0 wErr2).1
        0 = some j ∧
      j.failed = 2 ∧ errsLen j = 1 ∧ errsLen j ≠ j.failed :=
  ⟨_, rfl, rfl, rfl, by decide⟩

/-- C4: along the orchestrated lifecycle of a job (after creation, after
the running update and each loop iteration, and after completion) the
counters satisfy processed + failed <= total_urls. -/
theorem c4_counters_bounded (s : JobStore) (targets : List Target)
    (now doneTime : Nat) (oracle : Nat → Option String) (times : Nat → Nat)
    (s1 : JobStore) (jid : Nat)
    (hwf : ∀ jb ∈ s.jobs, jb.id < s.nextId)
    (hcreate : create_batch_job s targets now = (s1, Except.ok jid)) :
    (∀ j, get_by_id s1 jid = some j →
      j.processed + j.failed ≤ j.total_urls) ∧
    (∀ k, k ≤ targets.length → ∀ j,
      get_by_id (stateAfter oracle times s1 jid targets k) jid = some j →
      j.processed + j.failed ≤ j.total_urls) ∧
    (∀ j, get_by_id ((mark_complete (stateAfter oracle times s1 jid targets
        targets.length) jid doneTime).1) jid = some j →
      j.processed + j.failed ≤ j.total_urls) := by
  obtain ⟨hs1, hjid⟩ := create_batch_job_ok s targets now s1 jid hcreate
  have hvalall := create_batch_job_ok_valid s targets now s1 jid hcreate
  subst hs1
  subst hjid
  have hget1 : get_by_id
      { jobs := s.jobs ++
          [{ id := s.nextId, status := "pending",
             total_urls := targets.length, processed := 0, failed := 0,
             errors := none, created_at := now, completed_at := none }],
        nextId := s.nextId + 1 } s.nextId =
      some { id := s.nextId, status := "pending",
             total_urls := targets.length, processed := 0, failed := 0,
             errors := none, created_at := now, completed_at := none } :=
    get_by_id_create s hwf targets.length now
  refine ⟨?_, ?_, ?_⟩
  · intro j hj
    rw [hget1] at hj
    injection hj with hj
    rw [← hj]
    simp
  · intro k _ j hj
    obtain ⟨j2, hj2, hst, htot, hproc, hfail⟩ :=
      stateAfter_spec oracle times _ s.nextId targets _ hget1 k
        (fun t ht => hvalall t (List.take_subset _ _ ht))
    rw [hj2] at hj
    injection hj with hj
    rw [← hj]
    have e1 : j2.total_urls = targets.length := htot
    have e2 : j2.processed =
        0 + numSuccesses oracle 0 (targets.take k).length := hproc
    have e3 : j2.failed =
        0 + numFailures oracle 0 (targets.take k).length := hfail
    have hadd := numSuccesses_add_numFailures oracle (targets.take k).length 0
    have hlen : (targets.take k).length ≤ targets.length := by
      simp [List.length_take]
    omega
  · intro j hj
    obtain ⟨j2, hj2, hst, htot, hproc, hfail⟩ :=
      stateAfter_spec oracle times _ s.nextId targets _ hget1 targets.length
        (fun t ht => hvalall t (List.take_subset _ _ ht))
    have hmc : mark_complete (stateAfter oracle times
        { jobs := s.jobs ++
            [{ id := s.nextId, status := "pending",
               total_urls := targets.length, processed := 0, failed := 0,
               errors := none, created_at := now, completed_at := none }],
          nextId := s.nextId + 1 } s.nextId targets targets.length)
        s.nextId doneTime =
        (setJob (stateAfter oracle times
            { jobs := s.jobs ++
                [{ id := s.nextId, status := "pending",
                   total_urls := targets.length, processed := 0, failed := 0,
                   errors := none, created_at := now,
                   completed_at := none }],
              nextId := s.nextId + 1 } s.nextId targets targets.length)
          { j2 with status := "complete", completed_at := some doneTime },
         some { j2 with status := "complete",
                        completed_at := some doneTime }) := by
      simp [mark_complete, hj2]
    rw [hmc] at hj
    have hj3 := get_by_id_setJob _ s.nextId j2
      { j2 with status := "complete", completed_at := some doneTime }
      hj2 rfl
    rw [hj3] at hj
    injection hj with hj
    rw [← hj]
    have e1 : j2.total_urls = targets.length := htot
    have e2 : j2.processed =
        0 + numSuccesses oracle 0 (targets.take targets.length).length :=
      hproc
    have e3 : j2.failed =
        0 + numFailures oracle 0 (targets.take targets.length).length :=
      hfail
    have hadd := numSuccesses_add_numFailures oracle
      (targets.take targets.length).length 0
    have hlen : (targets.take targets.length).length ≤ targets.length := by
      simp [List.length_take]
    show j2.processed + j2.failed ≤ j2.total_urls
    omega

/-- C4 witness: the lifecycle of the two-target scenario job. -/
theorem c4_witness :
    (∀ j, get_by_id wStore1 0 = some j →
      j.processed + j.failed ≤ j.total_urls) ∧
    (∀ k, k ≤ wTargets.length → ∀ j,
      get_by_id (stateAfter wOracle wTimes wStore1 0 wTargets k) 0 =
        some j → j.processed + j.failed ≤ j.total_urls) ∧
    (∀ j, get_by_id ((mark_complete (stateAfter wOracle wTimes wStore1 0
        wTargets wTargets.length) 0 99).1) 0 = some j →
      j.processed + j.failed ≤ j.total_urls) :=
  c4_counters_bounded wStore0 wTargets 5 99 wOracle wTimes wStore1 0
    (by simp [wStore0]) (by rfl)

/-- C10: the orchestrator never assigns the failed status: along the
orchestrated lifecycle the job reads pending after creation, running at
every intermediate loop point, and complete at the end, whatever the
per-target outcomes. -/
theorem c10_status_never_failed (s : JobStore) (targets : List Target)
    (now doneTime : Nat) (oracle : Nat → Option String) (times : Nat → Nat)
    (s1 : JobStore) (jid : Nat)
    (hwf : ∀ jb ∈ s.jobs, jb.id < s.nextId)
    (hcreate : create_batch_job s targets now = (s1, Except.ok jid)) :
    (∀ j, get_by_id s1 jid = some j → j.status = "pending") ∧
    (∀ k, k ≤ targets.length → ∀ j,
      get_by_id (stateAfter oracle times s1 jid targets k) jid = some j →
      j.status = "running") ∧
    (∀ j, get_by_id ((mark_complete (stateAfter oracle times s1 jid targets
        targets.length) jid doneTime).1) jid = some j →
      j.status = "complete") := by
  obtain ⟨hs1, hjid⟩ := create_batch_job_ok s targets now s1 jid hcreate
  have hvalall := create_batch_job_ok_valid s targets now s1 jid hcreate
  subst hs1
  subst hjid
  have hget1 : get_by_id
      { jobs := s.jobs ++
          [{ id := s.nextId, status := "pending",
             total_urls := targets.length, processed := 0, failed := 0,
             errors := none, created_at := now, completed_at := none }],
        nextId := s.nextId + 1 } s.nextId =
      some { id := s.nextId, status := "pending",
             total_urls := targets.length, processed := 0, failed := 0,
             errors := none, created_at := now, completed_at := none } :=
    get_by_id_create s hwf targets.length now
  refine ⟨?_, ?_, ?_⟩
  · intro j hj
    rw [hget1] at hj
    injection hj with hj
    rw [← hj]
  · intro k _ j hj
    obtain ⟨j2, hj2, hst, htot, hproc, hfail⟩ :=
      stateAfter_spec oracle times _ s.nextId targets _ hget1 k
        (fun t ht => hvalall t (List.take_subset _ _ ht))
    rw [hj2] at hj
    injection hj with hj
    rw [← hj]
    exact hst
  · intro j hj
    obtain ⟨j2, hj2, hst, htot, hproc, hfail⟩ :=
      stateAfter_spec oracle times _ s.nextId targets _ hget1 targets.length
        (fun t ht => hvalall t (List.take_subset _ _ ht))
    have hmc : mark_complete (stateAfter oracle times
        { jobs := s.jobs ++
            [{ id := s.nextId, status := "pending",
               total_urls := targets.length, processed := 0, failed := 0,
               errors := none, created_at := now, completed_at := none }],
          nextId := s.nextId + 1 } s.nextId targets targets.length)
        s.nextId doneTime =
        (setJob (stateAfter oracle times
            { jobs := s.jobs ++
                [{ id := s.nextId, status := "pending",
                   total_urls := targets.length, processed := 0, failed := 0,
                   errors := none, created_at := now,
                   completed_at := none }],
              nextId := s.nextId + 1 } s.nextId targets targets.length)
          { j2 with status := "complete", completed_at := some doneTime },
         some { j2 with status := "complete",
                        completed_at := some doneTime }) := by
      simp [mark_complete, hj2]
    rw [hmc] at hj
    have hj3 := get_by_id_setJob _ s.nextId j2
      { j2 with status := "complete", completed_at := some doneTime }
      hj2 rfl
    rw [hj3] at hj
    injection hj with hj
    rw [← hj]

/-- C10 witness: the two-target scenario in which the second target fails,
yet the job reads pending, running, then complete. -/
theorem c10_witness :
    (∀ j, get_by_id wStore1 0 = some j → j.status = "pending") ∧
    (∀ k, k ≤ wTargets.length → ∀ j,
      get_by_id (stateAfter wOracle wTimes wStore1 0 wTargets k) 0 =
        some j → j.status = "running") ∧
    (∀ j, get_by_id ((mark_complete (stateAfter wOracle wTimes wStore1 0
        wTargets wTargets.length) 0 99).1) 0 = some j →
      j.status = "complete") :=
  c10_status_never_failed wStore0 wTargets 5 99 wOracle wTimes wStore1 0
    (by simp [wStore0]) (by rfl)

/-! Attribute-list lemmas for the upsert repository. -/

lemma getField_replace_self (fs : List (String × String)) (n v : String) :
    (fs.find? (fun p => p.1 == n)).isSome = true →
    getField (fs.map (fun p => if p.1 == n then (n, v) else p)) n = some v := by
  induction fs with
  | nil => intro h; simp [List.find?] at h
  | cons a fs ih =>
      intro h
      by_cases ha : (a.1 == n) = true
      · simp [getField, List.find?, ha]
      · have ha2 : (a.1 == n) = false := by simpa using ha
        simp only [List.find?, ha2] at h
        simp only [List.map_cons, ha2, Bool.false_eq_true, if_false, getField,
          List.find?]
        exact ih h

lemma getField_replace_ne (fs : List (String × String)) (n v m : String)
    (hm : m ≠ n) :
    getField (fs.map (fun p => if p.1 == n then (n, v) else p)) m =
      getField fs m := by
  induction fs with
  | nil => rfl
  | cons a fs ih =>
      have hnm : (n == m) = false := by
        simp only [beq_eq_false_iff_ne, ne_eq]
        exact fun hcon => hm hcon.symm
      by_cases ha : (a.1 == n) = true
      · have han : a.1 = n := by simpa using ha
        have ham : (a.1 == m) = false := by rw [han]; exact hnm
        simp only [List.map_cons, ha, if_true, getField, List.find?, hnm, ham]
        exact ih
      · have ha2 : (a.1 == n) = false := by simpa using ha
        by_cases ham : (a.1 == m) = true
        · simp [getField, List.find?, ha2, ham]
        · have ham2 : (a.1 == m) = false := by simpa using ham
          simp only [List.map_cons, ha2, Bool.false_eq_true, if_false,
            getField, List.find?, ham2]
          exact ih

lemma getField_append_single_self (fs : List (String × String)) (n v : String)
    (habs : fs.find? (fun p => p.1 == n) = none) :
    getField (fs ++ [(n, v)]) n = some v := by
  simp [getField, List.find?_append, habs, List.find?]

lemma getField_append_single_ne (fs : List (String × String)) (n v m : String)
    (hm : m ≠ n) :
    getField (fs ++ [(n, v)]) m = getField fs m := by
  have hnm : (n == m) = false := by
    simp only [beq_eq_false_iff_ne, ne_eq]
    exact fun hcon => hm hcon.symm
  simp [getField, List.find?_append, List.find?, hnm]

/-- setattr then getattr of the same attribute reads the written value. -/
lemma getField_setField_self (fs : List (String × String)) (n v : String) :
    getField (setField fs n v) n = some v := by
  by_cases hpres : (List.find? (fun p => p.1 == n) fs).isSome = true
  · unfold setField
    rw [if_pos hpres]
    exact getField_replace_self fs n v hpres
  · unfold setField
    rw [if_neg hpres]
    exact getField_append_single_self fs n v
      (Option.not_isSome_iff_eq_none.1 (by simpa using hpres))

/-- setattr leaves every other attribute untouched. -/
lemma getField_setField_ne (fs : List (String × String)) (n v m : String)
    (hm : m ≠ n) :
    getField (setField fs n v) m = getField fs m := by
  by_cases hpres : (List.find? (fun p => p.1 == n) fs).isSome = true
  · unfold setField
    rw [if_pos hpres]
    exact getField_replace_ne fs n v m hm
  · unfold setField
    rw [if_neg hpres]
    exact getField_append_single_ne fs n v m hm

/-- The overwrite loop does not touch attributes the candidate does not
carry. -/
lemma getField_overwrite_notin (c : List (String × String)) :
    ∀ (e : List (String × String)) (f : String),
      (∀ kv ∈ c, kv.1 ≠ f) →
      getField (overwriteFields e c) f = getField e f := by
  induction c with
  | nil => intro e f _; rfl
  | cons a c ih =>
      intro e f hf
      have hstep : overwriteFields e (a :: c) =
          overwriteFields
            (if isPrivateAttr a.1 || a.1 == "id" then e
             else setField e a.1 a.2) c := rfl
      rw [hstep, ih _ f (fun kv hkv => hf kv (List.mem_cons_of_mem a hkv))]
      by_cases hskip : (isPrivateAttr a.1 || a.1 == "id") = true
      · rw [if_pos hskip]
      · rw [if_neg hskip]
        exact getField_setField_ne e a.1 a.2 f
          (Ne.symm (hf a (List.mem_cons_self a c)))

/-- After the overwrite loop, every non-private, non-id attribute carried by
the candidate reads the candidate's value (Python attribute dicts have
unique keys, hence the Nodup hypothesis). -/
lemma getField_overwrite_of_mem (c : List (String × String)) :
    ∀ (e : List (String × String)) (f v : String),
      (c.map Prod.fst).Nodup →
      isPrivateAttr f = false → (f == "id") = false →
      getField c f = some v →
      getField (overwriteFields e c) f = some v := by
  induction c with
  | nil => intro e f v _ _ _ hg; simp [getField, List.find?] at hg
  | cons a c ih =>
      intro e f v hnd hus hid hg
      have hnd2 : (c.map Prod.fst).Nodup ∧ a.1 ∉ c.map Prod.fst := by
        have h := List.nodup_cons.1
          (show (a.1 :: c.map Prod.fst).Nodup from hnd)
        exact ⟨h.2, h.1⟩
      have hstep : overwriteFields e (a :: c) =
          overwriteFields
            (if isPrivateAttr a.1 || a.1 == "id" then e
             else setField e a.1 a.2) c := rfl
      rw [hstep]
      by_cases haf : (a.1 == f) = true
      · have haf2 : a.1 = f := by simpa using haf
        have hv : a.2 = v := by
          have := hg
          simp only [getField, List.find?, haf, Option.map_some] at this
          exact Option.some.inj this
        have hskip : (isPrivateAttr a.1 || a.1 == "id") = false := by
          rw [haf2]
          simp [hus, hid]
        rw [if_neg (by simp [hskip])]
        have hnotin : ∀ kv ∈ c, kv.1 ≠ f := by
          intro kv hkv hcon
          exact hnd2.2 (by
            rw [haf2, ← hcon]
            exact List.mem_map_of_mem Prod.fst hkv)
        rw [getField_overwrite_notin c _ f hnotin, haf2, hv]
        exact getField_setField_self e f v
      · have haf2 : (a.1 == f) = false := by simpa using haf
        have hg2 : getField c f = some v := by
          simpa [getField, List.find?, haf2] using hg
        exact ih _ f v hnd2.1 hus hid hg2

/-- A row whose attributes carry all natural-key values matches the
upsert WHERE clause. -/
lemma matchesKey_of_getField (K : List (String × String)) (r : Row)
    (hkeys : ∀ kv ∈ K, getField r.fields kv.1 = some kv.2) :
    matchesKey K r = true := by
  rw [matchesKey, List.all_eq_true]
  intro kv hkv
  rw [hkeys kv hkv]
  simp

/-- Replacing the unique key-matching row by a key-matching update leaves
that update as the unique key-matching row. -/
lemma filter_map_replace (K : List (String × String)) (existing updated : Row)
    (hupd : matchesKey K updated = true) :
    ∀ (l : List Row), (l.map (fun r => r.id)).Nodup →
      l.filter (matchesKey K) = [existing] →
      (l.map (fun r => if r.id == existing.id then updated else r)).filter
        (matchesKey K) = [updated] := by
  intro l
  induction l with
  | nil => intro _ h; simp at h
  | cons a l ih =>
      intro hnd hflt
      have hnd2 : (l.map (fun r => r.id)).Nodup ∧
          a.id ∉ l.map (fun r => r.id) := by
        have h := List.nodup_cons.1
          (show (a.id :: l.map (fun r => r.id)).Nodup from hnd)
        exact ⟨h.2, h.1⟩
      by_cases ha : matchesKey K a = true
      · rw [List.filter_cons_of_pos ha] at hflt
        have hax : a = existing := List.head_eq_of_cons_eq hflt
        have htl : l.filter (matchesKey K) = [] :=
          List.tail_eq_of_cons_eq hflt
        subst hax
        have hcong : ∀ r ∈ l,
            (if r.id == a.id then updated else r) = r := by
          intro r hr
          have hne : (r.id == a.id) = false := by
            simp only [beq_eq_false_iff_ne, ne_eq]
            intro hcon
            exact hnd2.2 (by
              rw [← hcon]
              exact List.mem_map_of_mem _ hr)
          simp [hne]
        have hmapl : l.map (fun r => if r.id == a.id then updated else r) =
            l := by
          rw [List.map_congr_left hcong]
          simp
        have hhead : (if a.id == a.id then updated else a) = updated := by
          simp
        simp only [List.map_cons, hhead]
        rw [List.filter_cons_of_pos hupd, hmapl, htl]
      · have ha2 : matchesKey K a = false := by simpa using ha
        rw [List.filter_cons_of_neg (by simp [ha2])] at hflt
        have hex : existing ∈ l := by
          have hm : existing ∈ l.filter (matchesKey K) := by
            rw [hflt]
            simp
          exact (List.mem_filter.1 hm).1
        have hane : (a.id == existing.id) = false := by
          simp only [beq_eq_false_iff_ne, ne_eq]
          intro hcon
          exact hnd2.2 (by
            rw [hcon]
            exact List.mem_map_of_mem _ hex)
        have hahead : (if a.id == existing.id then updated else a) = a := by
          simp [hane]
        simp only [List.map_cons, hahead]
        rw [List.filter_cons_of_neg (by simp [ha2])]
        exact ih hnd2.1 hflt

/-- Full characterisation of one BaseRepository.upsert call on a store
holding at most one row for the natural key: afterwards exactly one row
matches the key, well-formedness is preserved, the returned row keeps the
found row's storage identity (or receives the next id on insert), and its
attributes read the candidate's values. -/
lemma upsert_spec (s : RecordStore) (c K : List (String × String))
    (hwf : s.WF)
    (hatmost : (s.rows.filter (matchesKey K)).length ≤ 1)
    (hkeys : ∀ kv ∈ K, getField c kv.1 = some kv.2)
    (hknames : ∀ kv ∈ K, isPrivateAttr kv.1 = false ∧ (kv.1 == "id") = false)
    (hnodup : (c.map Prod.fst).Nodup) :
    (upsert s c K).1.rows.filter (matchesKey K) = [(upsert s c K).2] ∧
    (upsert s c K).1.WF ∧
    (∀ e, s.rows.find? (matchesKey K) = some e →
      (upsert s c K).2.id = e.id) ∧
    (s.rows.find? (matchesKey K) = none →
      (upsert s c K).2.id = s.nextId) ∧
    (∀ f v, isPrivateAttr f = false → (f == "id") = false →
      getField c f = some v →
      getField (upsert s c K).2.fields f = some v) := by
  cases hfind : s.rows.find? (matchesKey K) with
  | none =>
      have hunf : upsert s c K =
          ({ rows := s.rows ++ [{ id := s.nextId, fields := c }],
             nextId := s.nextId + 1 },
           { id := s.nextId, fields := c }) := by
        simp [upsert, hfind]
      have hnomatch : ∀ r ∈ s.rows, ¬ matchesKey K r = true :=
        List.find?_eq_none.1 hfind
      have hr0 : matchesKey K { id := s.nextId, fields := c } = true :=
        matchesKey_of_getField K _ hkeys
      rw [hunf]
      refine ⟨?_, ⟨?_, ?_⟩, ?_, ?_, ?_⟩
      · show (s.rows ++ [({ id := s.nextId, fields := c } : Row)]).filter
            (matchesKey K) = [({ id := s.nextId, fields := c } : Row)]
        rw [List.filter_append, List.filter_eq_nil_iff.2 hnomatch]
        simp [hr0]
      · intro r hr
        rcases List.mem_append.1 hr with hr | hr
        · exact Nat.lt_succ_of_lt (hwf.1 r hr)
        · rw [List.mem_singleton.1 hr]
          exact Nat.lt_succ_self _
      · show ((s.rows ++ [({ id := s.nextId, fields := c } : Row)]).map
            (fun r => r.id)).Nodup
        rw [List.map_append]
        refine List.nodup_append.2 ⟨hwf.2, List.nodup_singleton _, ?_⟩
        intro b hb hb2
        obtain ⟨r, hr, hrb⟩ := List.mem_map.1 hb
        have hlt := hwf.1 r hr
        have hbnext : b = s.nextId := by simpa using hb2
        rw [← hrb] at hbnext
        omega
      · intro e he
        exact Option.noConfusion he
      · intro _
        rfl
      · intro f v _ _ hg
        exact hg
  | some existing =>
      have hmem : existing ∈ s.rows := List.mem_of_find?_eq_some hfind
      have hmatch : matchesKey K existing = true := List.find?_some hfind
      have hflt : s.rows.filter (matchesKey K) = [existing] :=
        filter_singleton_of_mem (matchesKey K) s.rows existing hmem hmatch
          hatmost
      have hupdmatch : matchesKey K
          ({ existing with
             fields := overwriteFields existing.fields c } : Row) = true := by
        apply matchesKey_of_getField
        intro kv hkv
        exact getField_overwrite_of_mem c existing.fields kv.1 kv.2 hnodup
          (hknames kv hkv).1 (hknames kv hkv).2 (hkeys kv hkv)
      have hunf : upsert s c K =
          ({ s with rows := s.rows.map (fun r =>
               if r.id == existing.id
               then { existing with
                      fields := overwriteFields existing.fields c }
               else r) },
           { existing with
             fields := overwriteFields existing.fields c }) := by
        simp [upsert, hfind]
      rw [hunf]
      refine ⟨?_, ⟨?_, ?_⟩, ?_, ?_, ?_⟩
      · exact filter_map_replace K existing _ hupdmatch s.rows hwf.2 hflt
      · intro r hr
        obtain ⟨x, hx, hxr⟩ := List.mem_map.1 hr
        by_cases hxid : (x.id == existing.id) = true
        · rw [if_pos hxid] at hxr
          rw [← hxr]
          exact hwf.1 existing hmem
        · rw [if_neg hxid] at hxr
          rw [← hxr]
          exact hwf.1 x hx
      · have hids : ((s.rows.map (fun r =>
            if r.id == existing.id
            then ({ existing with
                    fields := overwriteFields existing.fields c } : Row)
            else r)).map (fun r => r.id)) =
            s.rows.map (fun r => r.id) := by
          rw [List.map_map]
          apply List.map_congr_left
          intro r hr
          by_cases hrid : (r.id == existing.id) = true
          · have hre : r.id = existing.id := by simpa using hrid
            simp [Function.comp, hrid, hre]
          · simp [Function.comp, hrid]
        show ((s.rows.map (fun r =>
            if r.id == existing.id
            then ({ existing with
                    fields := overwriteFields existing.fields c } : Row)
            else r)).map (fun r => r.id)).Nodup
        rw [hids]
        exact hwf.2
      · intro e he
        rw [← Option.some.inj he]
      · intro habs
        exact Option.noConfusion habs
      · intro f v hf hfid hg
        exact getField_overwrite_of_mem c existing.fields f v hnodup hf hfid
          hg

/-- C3: two successive upserts with the same natural-key values leave
exactly one stored row for that key; its content reflects the second
call's candidate (last-write-wins) and its storage identity is the one the
row had after the first call (the key values themselves are unchanged,
being overwritten with equal values). -/
theorem c3_upsert_twice_last_write_wins (s : RecordStore)
    (c1 c2 K : List (String × String)) (hwf : s.WF)
    (hatmost : (s.rows.filter (matchesKey K)).length ≤ 1)
    (hkeys1 : ∀ kv ∈ K, getField c1 kv.1 = some kv.2)
    (hkeys2 : ∀ kv ∈ K, getField c2 kv.1 = some kv.2)
    (hknames : ∀ kv ∈ K, isPrivateAttr kv.1 = false ∧ (kv.1 == "id") = false)
    (hnd1 : (c1.map Prod.fst).Nodup) (hnd2 : (c2.map Prod.fst).Nodup) :
    (upsert (upsert s c1 K).1 c2 K).1.rows.filter (matchesKey K) =
      [(upsert (upsert s c1 K).1 c2 K).2] ∧
    (upsert (upsert s c1 K).1 c2 K).2.id = (upsert s c1 K).2.id ∧
    (∀ f v, isPrivateAttr f = false → (f == "id") = false →
      getField c2 f = some v →
      getField (upsert (upsert s c1 K).1 c2 K).2.fields f = some v) ∧
    (∀ kv ∈ K,
      getField (upsert (upsert s c1 K).1 c2 K).2.fields kv.1 =
        some kv.2) := by
  obtain ⟨hflt1, hwf1, _, _, _⟩ :=
    upsert_spec s c1 K hwf hatmost hkeys1 hknames hnd1
  have hatmost1 : ((upsert s c1 K).1.rows.filter (matchesKey K)).length ≤
      1 := by
    rw [hflt1]
    simp
  obtain ⟨hflt2, hwf2, hsome2, hnone2, hcontent2⟩ :=
    upsert_spec (upsert s c1 K).1 c2 K hwf1 hatmost1 hkeys2 hknames hnd2
  have hfind2 : (upsert s c1 K).1.rows.find? (matchesKey K) =
      some (upsert s c1 K).2 :=
    find_of_filter_singleton _ _ _ hflt1
  refine ⟨hflt2, hsome2 _ hfind2, hcontent2, ?_⟩
  intro kv hkv
  exact hcontent2 kv.1 kv.2 (hknames kv hkv).1 (hknames kv hkv).2
    (hkeys2 kv hkv)

/-- C3 witness: a player-season record upserted twice with the same key and
a changed yards value. -/
theorem c3_witness :
    (upsert (upsert wRecStore0 wCand1 wKey).1 wCand2 wKey).1.rows.filter
      (matchesKey wKey) =
      [(upsert (upsert wRecStore0 wCand1 wKey).1 wCand2 wKey).2] ∧
    (upsert (upsert wRecStore0 wCand1 wKey).1 wCand2 wKey).2.id =
      (upsert wRecStore0 wCand1 wKey).2.id ∧
    (∀ f v, isPrivateAttr f = false → (f == "id") = false →
      getField wCand2 f = some v →
      getField (upsert (upsert wRecStore0 wCand1 wKey).1 wCand2
        wKey).2.fields f = some v) ∧
    (∀ kv ∈ wKey,
      getField (upsert (upsert wRecStore0 wCand1 wKey).1 wCand2
        wKey).2.fields kv.1 = some kv.2) :=
  c3_upsert_twice_last_write_wins wRecStore0 wCand1 wCand2 wKey
    (by constructor <;> simp [wRecStore0]) (by simp [wRecStore0])
    (by decide) (by decide) (by decide) (by decide) (by decide)

/-! Lemmas for the injury-report weekly delete-then-reinsert upsert. -/

lemma foldl_deleteReport_nextId (reports : List InjuryReport) :
    ∀ s : InjuryStore, (reports.foldl deleteReport s).nextId = s.nextId := by
  induction reports with
  | nil => intro s; rfl
  | cons r rs ih => intro s; exact ih (deleteReport s r)

lemma foldl_deleteReport_rows (reports : List InjuryReport) :
    ∀ s : InjuryStore, (reports.foldl deleteReport s).rows =
      s.rows.filter (fun x => reports.all (fun rep => x.id != rep.id)) := by
  induction reports with
  | nil => intro s; simp
  | cons rep rs ih =>
      intro s
      have hstep : ((rep :: rs).foldl deleteReport s) =
          rs.foldl deleteReport (deleteReport s rep) := rfl
      rw [hstep, ih]
      show (s.rows.filter (fun x => x.id != rep.id)).filter
          (fun x => rs.all (fun rp => x.id != rp.id)) =
        s.rows.filter (fun x => (rep :: rs).all (fun rp => x.id != rp.id))
      rw [List.filter_filter]
      apply List.filter_congr
      intro x _
      simp [List.all_cons, Bool.and_comm]

lemma mem_get_by_week (s : InjuryStore) (season week : Int)
    (r : InjuryReport) :
    r ∈ get_by_week s season week ↔
      r ∈ s.rows ∧ matchesWeek season week r = true := by
  unfold get_by_week
  rw [(List.mergeSort_perm _ _).mem_iff, List.mem_filter]

/-- After delete_by_week no stored row matches the season and week. -/
lemma delete_by_week_no_match (s : InjuryStore) (season week : Int) :
    ∀ r ∈ (delete_by_week s season week).1.rows,
      matchesWeek season week r = false := by
  intro r hr
  have hrows := foldl_deleteReport_rows (get_by_week s season week) s
  have hr2 : r ∈ s.rows.filter (fun x =>
      (get_by_week s season week).all (fun rep => x.id != rep.id)) := by
    rw [← hrows]
    exact hr
  obtain ⟨hrmem, hrtest⟩ := List.mem_filter.1 hr2
  cases hm : matchesWeek season week r with
  | false => rfl
  | true =>
      exfalso
      have hrin : r ∈ get_by_week s season week :=
        (mem_get_by_week s season week r).2 ⟨hrmem, hm⟩
      have := List.all_eq_true.1 hrtest r hrin
      simp at this

lemma delete_by_week_nextId (s : InjuryStore) (season week : Int) :
    (delete_by_week s season week).1.nextId = s.nextId :=
  foldl_deleteReport_nextId (get_by_week s season week) s

lemma delete_by_week_sub (s : InjuryStore) (season week : Int) :
    ∀ r ∈ (delete_by_week s season week).1.rows, r ∈ s.rows := by
  intro r hr
  have hrows := foldl_deleteReport_rows (get_by_week s season week) s
  have hr2 : r ∈ s.rows.filter (fun x =>
      (get_by_week s season week).all (fun rep => x.id != rep.id)) := by
    rw [← hrows]
    exact hr
  exact (List.mem_filter.1 hr2).1

lemma entitiesFrom_length (dtos : List InjuryReportCreate) :
    ∀ start : Nat, (entitiesFrom start dtos).length = dtos.length := by
  induction dtos with
  | nil => intro start; rfl
  | cons d ds ih => intro start; simp [entitiesFrom, ih]

lemma entitiesFrom_matches (season week : Int)
    (dtos : List InjuryReportCreate)
    (hd : ∀ d ∈ dtos, d.season = season ∧ d.week = week) :
    ∀ (start : Nat) (e : InjuryReport), e ∈ entitiesFrom start dtos →
      matchesWeek season week e = true := by
  induction dtos with
  | nil => intro start e he; simp [entitiesFrom] at he
  | cons d ds ih =>
      intro start e he
      rcases List.mem_cons.1 he with he | he
      · have hds := hd d (List.mem_cons_self d ds)
        rw [he]
        simp [matchesWeek, hds.1, hds.2]
      · exact ih (fun x hx => hd x (List.mem_cons_of_mem d hx)) (start + 1)
          e he

lemma entitiesFrom_id_bounds (dtos : List InjuryReportCreate) :
    ∀ (start : Nat) (e : InjuryReport), e ∈ entitiesFrom start dtos →
      start ≤ e.id ∧ e.id < start + dtos.length := by
  induction dtos with
  | nil => intro start e he; simp [entitiesFrom] at he
  | cons d ds ih =>
      intro start e he
      rcases List.mem_cons.1 he with he | he
      · rw [he]
        simp only [List.length_cons]
        omega
      · have := ih (start + 1) e he
        simp only [List.length_cons]
        omega

/-- The insert loop of upsert_week_reports appends the entities built from
the DTOs under consecutive autoincrement ids, and returns them. -/
lemma insert_loop_spec (dtos : List InjuryReportCreate) :
    ∀ (s : InjuryStore) (acc : List InjuryReport),
      (dtos.foldl
        (fun acc dto =>
          let p := create_from_dto acc.1 dto
          (p.1, acc.2 ++ [p.2]))
        (s, acc)).1.rows = s.rows ++ entitiesFrom s.nextId dtos ∧
      (dtos.foldl
        (fun acc dto =>
          let p := create_from_dto acc.1 dto
          (p.1, acc.2 ++ [p.2]))
        (s, acc)).2 = acc ++ entitiesFrom s.nextId dtos ∧
      (dtos.foldl
        (fun acc dto =>
          let p := create_from_dto acc.1 dto
          (p.1, acc.2 ++ [p.2]))
        (s, acc)).1.nextId = s.nextId + dtos.length := by
  induction dtos with
  | nil => intro s acc; simp [entitiesFrom]
  | cons d ds ih =>
      intro s acc
      obtain ⟨h1, h2, h3⟩ := ih (create_from_dto s d).1 (acc ++
        [(create_from_dto s d).2])
      refine ⟨?_, ?_, ?_⟩
      · rw [show ((d :: ds).foldl
            (fun acc dto =>
              let p := create_from_dto acc.1 dto
              (p.1, acc.2 ++ [p.2]))
            (s, acc)) = (ds.foldl
            (fun acc dto =>
              let p := create_from_dto acc.1 dto
              (p.1, acc.2 ++ [p.2]))
            ((create_from_dto s d).1, acc ++ [(create_from_dto s d).2]))
          from rfl]
        rw [h1]
        simp [create_from_dto, entitiesFrom, List.append_assoc]
      · rw [show ((d :: ds).foldl
            (fun acc dto =>
              let p := create_from_dto acc.1 dto
              (p.1, acc.2 ++ [p.2]))
            (s, acc)) = (ds.foldl
            (fun acc dto =>
              let p := create_from_dto acc.1 dto
              (p.1, acc.2 ++ [p.2]))
            ((create_from_dto s d).1, acc ++ [(create_from_dto s d).2]))
          from rfl]
        rw [h2]
        simp [create_from_dto, entitiesFrom, List.append_assoc]
      · rw [show ((d :: ds).foldl
            (fun acc dto =>
              let p := create_from_dto acc.1 dto
              (p.1, acc.2 ++ [p.2]))
            (s, acc)) = (ds.foldl
            (fun acc dto =>
              let p := create_from_dto acc.1 dto
              (p.1, acc.2 ++ [p.2]))
            ((create_from_dto s d).1, acc ++ [(create_from_dto s d).2]))
          from rfl]
        rw [h3]
        simp [create_from_dto]
        omega

/-- One upsert_week_reports call: the rows matching the season and week
afterwards are exactly the entities created from the DTOs, one per DTO. -/
lemma upsert_week_spec (s : InjuryStore) (season week : Int)
    (dtos : List InjuryReportCreate)
    (hd : ∀ d ∈ dtos, d.season = season ∧ d.week = week) :
    (upsert_week_reports s season week dtos).1.rows.filter
        (matchesWeek season week) =
      (upsert_week_reports s season week dtos).2 ∧
    (upsert_week_reports s season week dtos).2.length = dtos.length := by
  obtain ⟨h1, h2, h3⟩ :=
    insert_loop_spec dtos (delete_by_week s season week).1 []
  have hunf : upsert_week_reports s season week dtos =
      dtos.foldl
        (fun acc dto =>
          let p := create_from_dto acc.1 dto
          (p.1, acc.2 ++ [p.2]))
        ((delete_by_week s season week).1, ([] : List InjuryReport)) := rfl
  rw [hunf]
  constructor
  · rw [h1, h2, List.filter_append]
    rw [List.filter_eq_nil_iff.2 (by
      intro a ha
      rw [delete_by_week_no_match s season week a ha]
      simp)]
    rw [List.filter_eq_self.2 (by
      intro a ha
      exact entitiesFrom_matches season week dtos hd _ a ha)]
  · rw [h2]
    simp [entitiesFrom_length]

/-- upsert_week_reports preserves the autoincrement discipline. -/
lemma upsert_week_WF (s : InjuryStore) (season week : Int)
    (dtos : List InjuryReportCreate) (hwf : s.WF) :
    (upsert_week_reports s season week dtos).1.WF := by
  obtain ⟨h1, h2, h3⟩ :=
    insert_loop_spec dtos (delete_by_week s season week).1 []
  have hunf : upsert_week_reports s season week dtos =
      dtos.foldl
        (fun acc dto =>
          let p := create_from_dto acc.1 dto
          (p.1, acc.2 ++ [p.2]))
        ((delete_by_week s season week).1, ([] : List InjuryReport)) := rfl
  rw [hunf]
  intro r hr
  rw [h3]
  have hr2 : r ∈ (delete_by_week s season week).1.rows ++
      entitiesFrom (delete_by_week s season week).1.nextId dtos := by
    rw [← h1]
    exact hr
  have hn := delete_by_week_nextId s season week
  rcases List.mem_append.1 hr2 with hr3 | hr3
  · have hs := delete_by_week_sub s season week r hr3
    have := hwf r hs
    omega
  · have := entitiesFrom_id_bounds dtos
      (delete_by_week s season week).1.nextId r hr3
    omega

/-- C9: upsert_week_reports deletes every stored record for the season and
week and inserts the given records; after a second call for the same
season/week the stored rows for that key are exactly the second call's
records (in particular a 3-record call followed by a 2-record call leaves
exactly 2), the first call's matching rows being gone. -/
theorem c9_upsert_week_reports_replaces (s : InjuryStore)
    (season week : Int) (d1 d2 : List InjuryReportCreate) (hwf : s.WF)
    (hd2 : ∀ d ∈ d2, d.season = season ∧ d.week = week) :
    (upsert_week_reports (upsert_week_reports s season week d1).1 season
        week d2).1.rows.filter (matchesWeek season week) =
      (upsert_week_reports (upsert_week_reports s season week d1).1 season
        week d2).2 ∧
    (upsert_week_reports (upsert_week_reports s season week d1).1 season
        week d2).2.length = d2.length ∧
    (∀ r ∈ (upsert_week_reports s season week d1).1.rows,
      matchesWeek season week r = true →
      r ∉ (upsert_week_reports (upsert_week_reports s season week d1).1
        season week d2).1.rows) := by
  obtain ⟨ha, hb⟩ := upsert_week_spec (upsert_week_reports s season
    week d1).1 season week d2 hd2
  have hwf1 : (upsert_week_reports s season week d1).1.WF :=
    upsert_week_WF s season week d1 hwf
  refine ⟨ha, hb, ?_⟩
  intro r hr hmatch hrin
  obtain ⟨h1, h2, h3⟩ := insert_loop_spec d2
    (delete_by_week (upsert_week_reports s season week d1).1 season
      week).1 []
  have hr2 : r ∈ (delete_by_week (upsert_week_reports s season week
      d1).1 season week).1.rows ++
      entitiesFrom (delete_by_week (upsert_week_reports s season week
        d1).1 season week).1.nextId d2 := by
    rw [← h1]
    exact hrin
  rcases List.mem_append.1 hr2 with hr3 | hr3
  · have hcon := delete_by_week_no_match (upsert_week_reports s season
      week d1).1 season week r hr3
    rw [hmatch] at hcon
    cases hcon
  · have hbounds := entitiesFrom_id_bounds d2 _ r hr3
    have hlt := hwf1 r hr
    have hn := delete_by_week_nextId (upsert_week_reports s season week
      d1).1 season week
    omega

/-- C9 witness: three injury reports for season 2024 week 5, then two
different ones, leave exactly the two. -/
theorem c9_witness :
    (upsert_week_reports (upsert_week_reports wInjStore0 2024 5 wDtos1).1
        2024 5 wDtos2).1.rows.filter (matchesWeek 2024 5) =
      (upsert_week_reports (upsert_week_reports wInjStore0 2024 5
        wDtos1).1 2024 5 wDtos2).2 ∧
    (upsert_week_reports (upsert_week_reports wInjStore0 2024 5
        wDtos1).1 2024 5 wDtos2).2.length = wDtos2.length ∧
    (∀ r ∈ (upsert_week_reports wInjStore0 2024 5 wDtos1).1.rows,
      matchesWeek 2024 5 r = true →
      r ∉ (upsert_week_reports (upsert_week_reports wInjStore0 2024 5
        wDtos1).1 2024 5 wDtos2).1.rows) :=
  c9_upsert_week_reports_replaces wInjStore0 2024 5 wDtos1 wDtos2
    (by intro r hr; simp [wInjStore0] at hr) (by decide)

end BeatBooks
